import Mathlib

/-!
Shallow embedding of `src/main.rs` of the lightnode repository.

The embedding models the two pipelines of the program:
`parse_block_votes` (stake registry construction, transaction decoding,
vote extraction, signature verification) and the entry-chain verification
invoked from `verify_slot`.  External library calls (base-58 decoding,
bincode deserialization, ed25519 verification, message serialization,
hashing) are kept abstract as function parameters; everything written in
`main.rs` itself is embedded concretely, panics (`unwrap`, `assert!`,
`panic!`) becoming `Except.error` values of the `Crash` type.
-/

namespace Lightnode

/-- Validator public keys, opaque and comparable by equality. -/
abbrev Pubkey := Nat

/-- 32-byte digests, opaque and comparable by equality. -/
abbrev Hash := Nat

/-- Ed25519 signatures, opaque values. -/
abbrev Sig := Nat

/-! ## Stake registry (main.rs lines 67-73)

`leader_stakes` is a `HashMap` collected from
`vote_accounts.current.iter().chain(vote_accounts.delinquent.iter())`;
collecting into a `HashMap` inserts the pairs in iteration order, a later
insert overwriting an earlier one with the same key.  We model the map as
an association list without duplicate keys and `collect` as a left fold of
overwriting inserts. -/

/-- One element of the `current` / `delinquent` vote-account lists, with the
fields `main.rs` reads: `node_pubkey` and `activated_stake`. -/
structure VoteAccountInfo where
  node_pubkey : Pubkey
  activated_stake : Nat
deriving DecidableEq, Repr

/-- Overwriting insert into an association-list map (`HashMap` insert). -/
def mapInsert (k : Pubkey) (v : Nat) : List (Pubkey × Nat) → List (Pubkey × Nat)
  | [] => [(k, v)]
  | (k', v') :: rest => if k' = k then (k, v) :: rest else (k', v') :: mapInsert k v rest

/-- Map lookup (`HashMap::get`). -/
def mapLookup (k : Pubkey) : List (Pubkey × Nat) → Option Nat
  | [] => none
  | (k', v') :: rest => if k' = k then some v' else mapLookup k rest

/-- `collect::<HashMap<_, _>>()`: insert every pair in iteration order. -/
def collectMap (l : List (Pubkey × Nat)) : List (Pubkey × Nat) :=
  l.foldl (fun m kv => mapInsert kv.1 kv.2 m) []

/-- main.rs lines 68-72: the stake registry, keyed by node identity, built
from the concatenation of the current and delinquent vote-account lists. -/
def leader_stakes (current delinquent : List VoteAccountInfo) : List (Pubkey × Nat) :=
  collectMap ((current ++ delinquent).map (fun x => (x.node_pubkey, x.activated_stake)))

/-- main.rs line 73: `leader_stakes.iter().fold(0, |sum, i| sum + *i.1)`. -/
def total_stake (current delinquent : List VoteAccountInfo) : Nat :=
  (leader_stakes current delinquent).foldl (fun sum i => sum + i.2) 0

/-- The value paired with the LAST occurrence of key `k` in `l`, if any. -/
def lastAssoc (k : Pubkey) (l : List (Pubkey × Nat)) : Option Nat :=
  (l.reverse.find? (fun kv => kv.1 == k)).map (fun kv => kv.2)

/-! ## Transactions (main.rs lines 89-135) -/

/-- One compiled instruction of a message: program-id index, account
indices and opaque data bytes. -/
structure CompiledInstruction where
  program_id_index : Nat
  accounts : List Nat
  data : List Nat
deriving DecidableEq, Repr

/-- The message of a versioned transaction: the ordered account-key list
and the ordered instruction list. -/
structure Message where
  account_keys : List Pubkey
  instructions : List CompiledInstruction
deriving DecidableEq, Repr

/-- `msg.static_account_keys()`. -/
def Message.static_account_keys (m : Message) : List Pubkey :=
  m.account_keys

/-- A decoded `VersionedTransaction`: signature list plus message. -/
structure VersionedTransaction where
  signatures : List Sig
  message : Message
deriving DecidableEq, Repr

/-- `solana_transaction_status::TransactionBinaryEncoding`. -/
inductive TransactionBinaryEncoding
  | base58
  | base64
deriving DecidableEq, Repr

/-- `solana_transaction_status::EncodedTransaction`: the wire forms a
block transaction can arrive in. -/
inductive EncodedTransaction
  | legacyBinary (payload : String)
  | binary (payload : String) (encoding : TransactionBinaryEncoding)
  | json
  | accounts
deriving DecidableEq, Repr

/-- `solana_sdk::vote::instruction::VoteInstruction`, restricted to a
representative set of variants: the two the code extracts a bank hash from
(`Vote`, `CompactUpdateVoteState`), slot-carrying variants whose hash the
code ignores (`VoteSwitch`, `UpdateVoteState`) and variants carrying no
slot list (`InitializeAccount`, `Authorize`, `Withdraw`). -/
inductive VoteInstruction
  | initializeAccount
  | authorize (new_authority : Pubkey)
  | vote (slots : List Nat) (hash : Hash)
  | withdraw (lamports : Nat)
  | voteSwitch (slots : List Nat) (hash : Hash) (proof_hash : Hash)
  | updateVoteState (lockout_slots : List Nat) (hash : Hash)
  | compactUpdateVoteState (lockout_slots : List Nat) (hash : Hash)
deriving DecidableEq, Repr

/-- Modelled from the spec: `VoteInstruction::last_voted_slot()` of the
solana-sdk crate (not part of this repository) — "Extract `last_voted_slot`
(absent if the variant carries no slot list)": the last slot of the
variant's slot / lockout list, `none` for variants carrying none. -/
def VoteInstruction.last_voted_slot : VoteInstruction → Option Nat
  | .vote slots _ => slots.getLast?
  | .voteSwitch slots _ _ => slots.getLast?
  | .updateVoteState lockout_slots _ => lockout_slots.getLast?
  | .compactUpdateVoteState lockout_slots _ => lockout_slots.getLast?
  | _ => none

/-- main.rs line 110: `vote_ix.last_voted_slot().unwrap_or_default()`. -/
def slot_vote_of (v : VoteInstruction) : Nat :=
  v.last_voted_slot.getD 0

/-- main.rs lines 111-115: the claimed bank hash — `Some` for the `Vote`
and `CompactUpdateVoteState` variants, `None` for every other variant. -/
def bank_hash_of : VoteInstruction → Option Hash
  | .vote _ h => some h
  | .compactUpdateVoteState _ h => some h
  | _ => none

/-- The panic sites on the scan path of `parse_block_votes` (each `unwrap`,
`assert!` and `panic!`), modelled as error values. -/
inductive Crash
  | unsupportedEncoding   -- line 93 assert of Base58 tag / line 98 panic on non-Binary form
  | malformedTx           -- lines 94-95: bs58 or bincode unwrap failure
  | noInstruction         -- line 107: instructions().get(0).unwrap()
  | malformedVoteIx       -- line 109: bincode VoteInstruction unwrap failure
  | noAccountKey          -- line 120: static_account_keys().get(0).unwrap()
  | unknownStake          -- line 121: leader_stakes.get(..).unwrap()
deriving DecidableEq, Repr

/-- The environment of the vote-extraction scan: the external crate
functions (base-58 plus bincode transaction decoding, bincode
vote-instruction decoding, message serialization, ed25519 verification)
kept abstract, together with the vote program id and the stake registry. -/
structure ExtractCtx where
  decodeBytes : String → Option VersionedTransaction
  decodeVoteIx : List Nat → Option VoteInstruction
  serializeMsg : Message → List Nat
  sigVerify : Sig → Pubkey → List Nat → Bool
  vote_program_id : Pubkey
  stakes : List (Pubkey × Nat)

/-- main.rs lines 91-99: unwrap the envelope.  `Binary` with the `Base58`
tag is bs58- then bincode-decoded (each `unwrap` a potential crash); any
other tag fails the `assert!`, and any non-`Binary` form hits the
catch-all `panic!`. -/
def decodeTx (ctx : ExtractCtx) : EncodedTransaction → Except Crash VersionedTransaction
  | .binary payload enc =>
    if enc = .base58 then
      match ctx.decodeBytes payload with
      | some tx => .ok tx
      | none => .error .malformedTx
    else .error .unsupportedEncoding
  | _ => .error .unsupportedEncoding

/-- The per-vote-transaction data the scan reports (main.rs lines 110-132):
voting node, voted slot, claimed bank hash, stake amount and one
verification boolean per checked signature. -/
structure VoteRecord where
  node_pubkey : Pubkey
  slot_vote : Nat
  bank_hash : Option Hash
  stake_amount : Nat
  sig_verifies : List Bool
deriving DecidableEq, Repr

/-- Outcome of one loop iteration: the transaction is skipped (the
`continue` at line 104, no vote program in its account list) or yields a
vote record. -/
inductive TxResult
  | skipped
  | voted (r : VoteRecord)
deriving DecidableEq, Repr

/-- main.rs lines 101-133: the part of the loop body after decoding.  If
the vote program is absent from the account keys the transaction is
skipped (`continue`); otherwise the first instruction is unwrapped,
decoded as a `VoteInstruction`, the first account key unwrapped as the
voting node, its stake unwrapped from the registry, and each
signature/account-key pair checked over the serialized message bytes. -/
def processDecoded (ctx : ExtractCtx) (tx : VersionedTransaction) : Except Crash TxResult :=
  if ctx.vote_program_id ∈ tx.message.static_account_keys then
    match tx.message.instructions.get? 0 with
    | none => .error .noInstruction
    | some ix =>
      match ctx.decodeVoteIx ix.data with
      | none => .error .malformedVoteIx
      | some vote_ix =>
        match tx.message.static_account_keys.get? 0 with
        | none => .error .noAccountKey
        | some node_pubkey =>
          match mapLookup node_pubkey ctx.stakes with
          | none => .error .unknownStake
          | some stake_amount =>
            .ok (.voted
              { node_pubkey := node_pubkey
                slot_vote := slot_vote_of vote_ix
                bank_hash := bank_hash_of vote_ix
                stake_amount := stake_amount
                sig_verifies := (tx.signatures.zip tx.message.static_account_keys).map
                  (fun sp => ctx.sigVerify sp.1 sp.2 (ctx.serializeMsg tx.message)) })
  else
    .ok .skipped

/-- main.rs lines 90-133: the body of the per-transaction loop. -/
def processTx (ctx : ExtractCtx) (etx : EncodedTransaction) : Except Crash TxResult :=
  match decodeTx ctx etx with
  | .error c => .error c
  | .ok tx => processDecoded ctx tx

/-- main.rs lines 89-135: the scan over the block's transactions.  A crash
aborts everything; a skipped transaction continues the loop; the first
transaction yielding a vote record ends the loop (the `break` at
line 134). -/
def scanTxs (ctx : ExtractCtx) : List EncodedTransaction → Except Crash (List VoteRecord)
  | [] => .ok []
  | etx :: rest =>
    match processTx ctx etx with
    | .error c => .error c
    | .ok .skipped => scanTxs ctx rest
    | .ok (.voted r) => .ok [r]

/-- main.rs lines 84-135: `parse_block_votes` on a fetched block whose
`transactions` field is optional; a block with no transaction list reports
nothing (lines 84-87). -/
def parse_block_votes (ctx : ExtractCtx)
    (transactions : Option (List EncodedTransaction)) : Except Crash (List VoteRecord) :=
  match transactions with
  | none => .ok []
  | some txs => scanTxs ctx txs

/-! ## Entry-chain verification (main.rs lines 161-181)

`verify_slot` delegates the chain check to `EntrySlice::verify` of the
`solana_entry` crate, which is not part of this repository; the
definitions below are therefore modelled from the spec (its §4.4). -/

/-- One entry of the chain: elapsed ticks, transactions, claimed hash. -/
structure Entry where
  num_ticks : Nat
  transactions : List VersionedTransaction
  hash : Hash
deriving DecidableEq, Repr

/-- The abstract hash primitives of the chain replay: the tick-hash
function, the mixing of a running hash with a transaction digest, and the
combined digest of an entry's transactions. -/
structure ChainCtx where
  tickHash : Hash → Hash
  mixHash : Hash → Hash → Hash
  txDigest : List VersionedTransaction → Hash

/-- Apply the tick-hash function `n` times. -/
def iterTick (f : Hash → Hash) : Nat → Hash → Hash
  | 0, h => h
  | n + 1, h => iterTick f n (f h)

/-- Modelled from the spec: the expected next hash of one entry (§4.4) —
apply the tick hash `num_ticks` times to the running hash and, when
transactions are present, mix in the combined digest of the entry's
transactions. -/
def nextEntryHash (c : ChainCtx) (h : Hash) (e : Entry) : Hash :=
  let t := iterTick c.tickHash e.num_ticks h
  if e.transactions.isEmpty then t else c.mixHash t (c.txDigest e.transactions)

/-- The verdict of entry-chain verification. -/
inductive VerifyOutcome
  | passed
  | failedHashMismatch (index : Nat)
deriving DecidableEq, Repr

/-- Modelled from the spec: the sequential replay (§4.4) — recompute each
entry's hash from the running hash; on the first entry whose recomputed
hash differs from the claimed one, fail with that entry's index; carry
the claimed hash forward otherwise. -/
def verifyFrom (c : ChainCtx) (h : Hash) (i : Nat) : List Entry → VerifyOutcome
  | [] => .passed
  | e :: rest =>
    if nextEntryHash c h e = e.hash then verifyFrom c e.hash (i + 1) rest
    else .failedHashMismatch i

/-- Modelled from the spec: `verify(entries, seed_hash)` (§4.4), the
`EntrySlice::verify` call at main.rs line 174. -/
def verifyEntries (c : ChainCtx) (entries : List Entry) (seed : Hash) : VerifyOutcome :=
  verifyFrom c seed 0 entries

/-- Every entry hash-chains correctly from `h`. -/
def chainOk (c : ChainCtx) (h : Hash) : List Entry → Bool
  | [] => true
  | e :: rest => (nextEntryHash c h e == e.hash) && chainOk c e.hash rest

/-- The running hash after a prefix: the prefix's last claimed hash, or
the seed when the prefix is empty. -/
def lastHashOf (seed : Hash) (es : List Entry) : Hash :=
  es.foldl (fun _ e => e.hash) seed

/-! ## Concrete fixtures

Closed inputs used by the witness and counterexample theorems. -/

/-- A decodable vote transaction: one signature, account keys
`[node 1, vote program 7]`, one instruction whose data decodes to
`Vote [5] 9` under `exCtx`. -/
def exVoteTx : VersionedTransaction :=
  { signatures := [11]
    message := { account_keys := [1, 7], instructions := [⟨1, [0], [2]⟩] } }

/-- A second decodable vote transaction, for node 3. -/
def exVoteTx2 : VersionedTransaction :=
  { signatures := [12]
    message := { account_keys := [3, 7], instructions := [⟨1, [0], [4]⟩] } }

/-- A transaction that does not reference the vote program. -/
def exOtherTx : VersionedTransaction :=
  { signatures := [13]
    message := { account_keys := [2, 8], instructions := [⟨1, [0], [2]⟩] } }

/-- A vote transaction with two signatures but only one account key. -/
def exShortKeyTx : VersionedTransaction :=
  { signatures := [11, 12]
    message := { account_keys := [7], instructions := [⟨0, [0], [2]⟩] } }

/-- A vote transaction with an empty instruction list. -/
def exNoIxTx : VersionedTransaction :=
  { signatures := [11]
    message := { account_keys := [1, 7], instructions := [] } }

/-- A vote transaction whose instruction decodes to `Withdraw 5`. -/
def exWithdrawTx : VersionedTransaction :=
  { signatures := [11]
    message := { account_keys := [1, 7], instructions := [⟨1, [0], [14]⟩] } }

/-- A concrete extraction context: a decoder recognising the fixture
payloads, a toy serializer and signature check, vote program id 7 and a
stake registry knowing nodes 1, 3 and 7. -/
def exCtx : ExtractCtx :=
  { decodeBytes := fun s =>
      if s = "tx1" then some exVoteTx
      else if s = "tx2" then some exVoteTx2
      else if s = "other" then some exOtherTx
      else if s = "short" then some exShortKeyTx
      else if s = "noix" then some exNoIxTx
      else if s = "wtx" then some exWithdrawTx
      else none
    decodeVoteIx := fun d =>
      if d = [2] then some (.vote [5] 9)
      else if d = [4] then some (.compactUpdateVoteState [6] 10)
      else if d = [14] then some (.withdraw 5)
      else none
    serializeMsg := fun m => m.account_keys ++ [m.instructions.length]
    sigVerify := fun s p bytes => s == p + bytes.length
    vote_program_id := 7
    stakes := [(1, 100), (3, 200), (7, 50)] }

/-- A concrete chain context: successor tick hash, additive mixing, the
transaction count as digest. -/
def exChain : ChainCtx :=
  { tickHash := fun h => h + 1
    mixHash := fun h d => h + d
    txDigest := fun txs => txs.length }

theorem mapLookup_insert_self (k : Pubkey) (v : Nat) (m : List (Pubkey × Nat)) :
    mapLookup k (mapInsert k v m) = some v := by
  induction m with
  | nil => simp [mapInsert, mapLookup]
  | cons kv rest ih =>
    obtain ⟨k', v'⟩ := kv
    by_cases h : k' = k
    · simp [mapInsert, mapLookup, h]
    · simp [mapInsert, mapLookup, h, ih]

theorem mapLookup_insert_ne (k k' : Pubkey) (v : Nat) (m : List (Pubkey × Nat))
    (h : k' ≠ k) : mapLookup k (mapInsert k' v m) = mapLookup k m := by
  induction m with
  | nil => simp [mapInsert, mapLookup, h]
  | cons kv rest ih =>
    obtain ⟨a, b⟩ := kv
    by_cases ha : a = k'
    · subst ha
      simp [mapInsert, mapLookup, h]
    · by_cases hk : a = k
      · subst hk
        simp [mapInsert, mapLookup, ha]
      · simp [mapInsert, mapLookup, ha, hk, ih]

theorem lastAssoc_append (k : Pubkey) (l₁ l₂ : List (Pubkey × Nat)) :
    lastAssoc k (l₁ ++ l₂) = ((lastAssoc k l₂).or (lastAssoc k l₁)) := by
  unfold lastAssoc
  rw [List.reverse_append, List.find?_append]
  cases h : List.find? (fun kv => kv.1 == k) l₂.reverse <;>
    simp [Option.or, h]

theorem lastAssoc_cons (k : Pubkey) (kv : Pubkey × Nat) (l : List (Pubkey × Nat)) :
    lastAssoc k (kv :: l) =
      ((lastAssoc k l).or (if kv.1 = k then some kv.2 else none)) := by
  have h : kv :: l = [kv] ++ l := rfl
  rw [h, lastAssoc_append]
  by_cases hk : kv.1 = k <;> simp [lastAssoc, hk]

theorem mapLookup_foldl_insert (k : Pubkey) (l : List (Pubkey × Nat)) :
    ∀ m : List (Pubkey × Nat),
      mapLookup k (l.foldl (fun m kv => mapInsert kv.1 kv.2 m) m) =
        ((lastAssoc k l).or (mapLookup k m)) := by
  induction l with
  | nil => intro m; simp [lastAssoc]
  | cons kv rest ih =>
    intro m
    rw [List.foldl_cons, ih, lastAssoc_cons]
    by_cases hk : kv.1 = k
    · rw [hk, mapLookup_insert_self]
      simp [hk]
      cases lastAssoc k rest <;> simp [Option.or]
    · rw [mapLookup_insert_ne k kv.1 kv.2 m hk]
      simp [hk]

theorem mapLookup_collectMap (k : Pubkey) (l : List (Pubkey × Nat)) :
    mapLookup k (collectMap l) = lastAssoc k l := by
  rw [collectMap, mapLookup_foldl_insert]
  cases lastAssoc k l <;> simp [mapLookup, Option.or]

theorem lastAssoc_isSome_of_mem (k : Pubkey) (l : List (Pubkey × Nat))
    (h : k ∈ l.map Prod.fst) : (lastAssoc k l).isSome := by
  unfold lastAssoc
  have hx : ∃ kv ∈ l.reverse, (fun kv : Pubkey × Nat => kv.1 == k) kv = true := by
    obtain ⟨kv, hmem, hfst⟩ := List.mem_map.mp h
    exact ⟨kv, List.mem_reverse.mpr hmem, by simp [hfst]⟩

  obtain ⟨kv, hfind⟩ := List.find?_isSome.mpr hx |> Option.isSome_iff_exists.mp
  simp [hfind]

theorem mem_map_fst_mapInsert (a k : Pubkey) (v : Nat) (m : List (Pubkey × Nat)) :
    a ∈ (mapInsert k v m).map Prod.fst ↔ a = k ∨ a ∈ m.map Prod.fst := by
  induction m with
  | nil => simp [mapInsert]
  | cons kv rest ih =>
    obtain ⟨k', v'⟩ := kv
    by_cases h : k' = k
    · subst h
      simp [mapInsert]
    · simp [mapInsert, h, ih]
      tauto

theorem nodup_keys_mapInsert (k : Pubkey) (v : Nat) (m : List (Pubkey × Nat))
    (h : (m.map Prod.fst).Nodup) : ((mapInsert k v m).map Prod.fst).Nodup := by
  induction m with
  | nil => simp [mapInsert]
  | cons kv rest ih =>
    obtain ⟨k', v'⟩ := kv
    simp only [List.map_cons, List.nodup_cons] at h
    by_cases hk : k' = k
    · subst hk
      simpa [mapInsert] using h
    · simp only [mapInsert, hk, if_false, List.map_cons, List.nodup_cons]
      refine ⟨fun hmem => ?_, ih h.2⟩
      rcases (mem_map_fst_mapInsert k' k v rest).mp hmem with h1 | h1
      · exact hk h1
      · exact h.1 h1

theorem nodup_keys_collectMap (l : List (Pubkey × Nat)) :
    ((collectMap l).map Prod.fst).Nodup := by
  suffices h : ∀ m : List (Pubkey × Nat), (m.map Prod.fst).Nodup →
      ((l.foldl (fun m kv => mapInsert kv.1 kv.2 m) m).map Prod.fst).Nodup by
    exact h [] (by simp)
  induction l with
  | nil => intro m hm; simpa using hm
  | cons kv rest ih =>
    intro m hm
    exact ih (mapInsert kv.1 kv.2 m) (nodup_keys_mapInsert kv.1 kv.2 m hm)

theorem mapLookup_eq_of_mem (k : Pubkey) (v : Nat) (m : List (Pubkey × Nat))
    (hnd : (m.map Prod.fst).Nodup) (hmem : (k, v) ∈ m) : mapLookup k m = some v := by
  induction m with
  | nil => cases hmem
  | cons kv rest ih =>
    obtain ⟨k', v'⟩ := kv
    simp only [List.map_cons, List.nodup_cons] at hnd
    rcases List.mem_cons.mp hmem with h | h
    · obtain ⟨h1, h2⟩ := Prod.mk.injEq .. ▸ h
      simp [mapLookup, h1.symm, h2]
    · have hk : k' ≠ k := by
        intro he
        subst he
        exact hnd.1 (List.mem_map.mpr ⟨(k', v), h, rfl⟩)
      simp [mapLookup, hk, ih hnd.2 h]

theorem foldl_add_snd (m : List (Pubkey × Nat)) :
    ∀ s : Nat, m.foldl (fun sum i => sum + i.2) s = s + (m.map Prod.snd).sum := by
  induction m with
  | nil => intro s; simp
  | cons kv rest ih =>
    intro s
    simp [List.foldl_cons, ih, Nat.add_assoc]

theorem map_keys_lookup (m : List (Pubkey × Nat)) (hnd : (m.map Prod.fst).Nodup) :
    (m.map Prod.fst).map (fun n => (mapLookup n m).getD 0) = m.map Prod.snd := by
  induction m with
  | nil => simp
  | cons kv rest ih =>
    obtain ⟨k, v⟩ := kv
    simp only [List.map_cons, List.nodup_cons] at hnd ⊢
    have h1 : (mapLookup k ((k, v) :: rest)).getD 0 = v := by simp [mapLookup]
    have hstep : ∀ n ∈ rest.map Prod.fst,
        (mapLookup n ((k, v) :: rest)).getD 0 = (mapLookup n rest).getD 0 := by
      intro n hn
      have hne : k ≠ n := fun he => hnd.1 (he ▸ hn)
      simp [mapLookup, hne]
    rw [h1, List.map_congr_left hstep, ih hnd.2]

/-! ## Scan helper lemmas -/

theorem scanTxs_append_skipped (ctx : ExtractCtx) (pre txs : List EncodedTransaction)
    (h : ∀ t ∈ pre, processTx ctx t = .ok .skipped) :
    scanTxs ctx (pre ++ txs) = scanTxs ctx txs := by
  induction pre with
  | nil => rfl
  | cons t rest ih =>
    have ht := h t (List.mem_cons_self t rest)
    rw [List.cons_append]
    simp only [scanTxs, ht]
    exact ih (fun t' ht' => h t' (List.mem_cons_of_mem t ht'))

theorem scanTxs_ok_length (ctx : ExtractCtx) (txs : List EncodedTransaction)
    (l : List VoteRecord) (h : scanTxs ctx txs = .ok l) : l.length ≤ 1 := by
  induction txs generalizing l with
  | nil =>
    simp only [scanTxs, Except.ok.injEq] at h
    subst h
    simp
  | cons etx rest ih =>
    simp only [scanTxs] at h
    cases hp : processTx ctx etx with
    | error c =>
      rw [hp] at h
      cases h
    | ok res =>
      rw [hp] at h
      cases res with
      | skipped => exact ih l h
      | voted r =>
        cases h
        simp

theorem processDecoded_voted_inv (ctx : ExtractCtx) (tx : VersionedTransaction)
    (r : VoteRecord) (h : processDecoded ctx tx = .ok (.voted r)) :
    ∃ ix vote_ix node_pubkey stake_amount,
      ctx.vote_program_id ∈ tx.message.static_account_keys ∧
      tx.message.instructions.get? 0 = some ix ∧
      ctx.decodeVoteIx ix.data = some vote_ix ∧
      tx.message.static_account_keys.get? 0 = some node_pubkey ∧
      mapLookup node_pubkey ctx.stakes = some stake_amount ∧
      r = { node_pubkey := node_pubkey
            slot_vote := slot_vote_of vote_ix
            bank_hash := bank_hash_of vote_ix
            stake_amount := stake_amount
            sig_verifies := (tx.signatures.zip tx.message.static_account_keys).map
              (fun sp => ctx.sigVerify sp.1 sp.2 (ctx.serializeMsg tx.message)) } := by
  by_cases hv : ctx.vote_program_id ∈ tx.message.static_account_keys
  · cases h0 : tx.message.instructions.get? 0 with
    | none =>
      simp only [processDecoded, if_pos hv, h0] at h
      exact absurd h (by simp)
    | some ix =>
      cases h1 : ctx.decodeVoteIx ix.data with
      | none =>
        simp only [processDecoded, if_pos hv, h0, h1] at h
        exact absurd h (by simp)
      | some vote_ix =>
        cases h2 : tx.message.static_account_keys.get? 0 with
        | none =>
          simp only [processDecoded, if_pos hv, h0, h1, h2] at h
          exact absurd h (by simp)
        | some node_pubkey =>
          cases h3 : mapLookup node_pubkey ctx.stakes with
          | none =>
            simp only [processDecoded, if_pos hv, h0, h1, h2, h3] at h
            exact absurd h (by simp)
          | some stake_amount =>
            simp only [processDecoded, if_pos hv, h0, h1, h2, h3, Except.ok.injEq,
              TxResult.voted.injEq] at h
            exact ⟨ix, vote_ix, node_pubkey, stake_amount, hv, rfl, h1, rfl, h3, h.symm⟩
  · simp only [processDecoded, if_neg hv] at h
    exact absurd h (by simp)

theorem processTx_voted_inv (ctx : ExtractCtx) (etx : EncodedTransaction)
    (r : VoteRecord) (h : processTx ctx etx = .ok (.voted r)) :
    ∃ tx, decodeTx ctx etx = .ok tx ∧ processDecoded ctx tx = .ok (.voted r) := by
  unfold processTx at h
  cases hd : decodeTx ctx etx with
  | error c => rw [hd] at h; cases h
  | ok tx => rw [hd] at h; exact ⟨tx, rfl, h⟩

theorem zip_get? {α β : Type} (l : List α) (m : List β) :
    ∀ (i : Nat) (a : α) (b : β), l.get? i = some a → m.get? i = some b →
      (l.zip m).get? i = some (a, b) := by
  induction l generalizing m with
  | nil => intro i a b ha _; cases i <;> cases ha
  | cons x xs ih =>
    intro i a b ha hb
    cases m with
    | nil => cases i <;> cases hb
    | cons y ys =>
      cases i with
      | zero =>
        cases ha
        cases hb
        rfl
      | succ n => exact ih ys n a b ha hb

/-! ## Entry-chain helper lemmas -/

theorem verifyFrom_passed_iff (c : ChainCtx) (es : List Entry) :
    ∀ (h : Hash) (i : Nat), verifyFrom c h i es = .passed ↔ chainOk c h es = true := by
  induction es with
  | nil => intro h i; simp [verifyFrom, chainOk]
  | cons e rest ih =>
    intro h i
    by_cases he : nextEntryHash c h e = e.hash
    · simp [verifyFrom, chainOk, he, ih]
    · simp [verifyFrom, chainOk, he]

theorem lastHashOf_cons (seed : Hash) (e : Entry) (es : List Entry) :
    lastHashOf seed (e :: es) = lastHashOf e.hash es := rfl

theorem verifyFrom_first_mismatch (c : ChainCtx) (pre : List Entry) :
    ∀ (h : Hash) (i : Nat) (e : Entry) (post : List Entry),
      chainOk c h pre = true → nextEntryHash c (lastHashOf h pre) e ≠ e.hash →
      verifyFrom c h i (pre ++ e :: post) = .failedHashMismatch (i + pre.length) := by
  induction pre with
  | nil =>
    intro h i e post _ hne
    simp only [List.nil_append, verifyFrom]
    rw [if_neg (by simpa [lastHashOf] using hne)]
    simp
  | cons e' rest ih =>
    intro h i e post hok hne
    simp only [chainOk, Bool.and_eq_true, beq_iff_eq] at hok
    have hstep : verifyFrom c h i ((e' :: rest) ++ e :: post) =
        verifyFrom c e'.hash (i + 1) (rest ++ e :: post) := by
      simp only [List.cons_append, verifyFrom]
      rw [if_pos hok.1]
      rfl
    rw [hstep, ih e'.hash (i + 1) e post hok.2 (by simpa [lastHashOf_cons] using hne)]
    simp only [List.length_cons]
    congr 1
    omega

theorem processTx_sigVerify_isOk (ctx : ExtractCtx) (sv : Sig → Pubkey → List Nat → Bool)
    (etx : EncodedTransaction) :
    (processTx { ctx with sigVerify := sv } etx).isOk = (processTx ctx etx).isOk := by
  have hd : decodeTx { ctx with sigVerify := sv } etx = decodeTx ctx etx := rfl
  unfold processTx
  rw [hd]
  cases decodeTx ctx etx with
  | error c => rfl
  | ok tx =>
    by_cases hv : ctx.vote_program_id ∈ tx.message.static_account_keys
    · cases h0 : tx.message.instructions[0]? with
      | none => simp [processDecoded, hv, h0]
      | some ix =>
        cases h1 : ctx.decodeVoteIx ix.data with
        | none => simp [processDecoded, hv, h0, h1]
        | some vix =>
          cases h2 : tx.message.static_account_keys[0]? with
          | none => simp [processDecoded, hv, h0, h1, h2]
          | some node =>
            cases h3 : mapLookup node ctx.stakes with
            | none => simp [processDecoded, hv, h0, h1, h2, h3]
            | some stake =>
              simp [processDecoded, hv, h0, h1, h2, h3, Except.isOk, Except.toBool]
    · simp [processDecoded, hv]

/-! ## The claims -/

/-- C1 counterexample: under a concrete context, the single-transaction
block decodes to one vote record, but putting one malformed envelope in
front of that same valid vote transaction makes the whole scan crash
(`Except.error`), not yield N-1 = 1 records. -/
theorem c1_claim_counterexample :
    parse_block_votes exCtx
        (some [.binary "bad" .base58, .binary "tx1" .base58]) = .error .malformedTx ∧
    parse_block_votes exCtx (some [.binary "tx1" .base58]) =
      .ok [⟨1, 5, some 9, 100, [false]⟩] :=
  ⟨rfl, rfl⟩

/-- C1 (amended): a decode failure of one transaction during vote
extraction is NOT skipped: after any prefix of skipped transactions, a
transaction whose processing crashes aborts the whole scan with that
crash, whatever the remaining transactions are, and no vote record is
produced. -/
theorem c1_decode_failure_aborts_scan (ctx : ExtractCtx)
    (pre : List EncodedTransaction) (etx : EncodedTransaction)
    (rest : List EncodedTransaction) (c : Crash)
    (hpre : ∀ t ∈ pre, processTx ctx t = .ok .skipped)
    (hc : processTx ctx etx = .error c) :
    parse_block_votes ctx (some (pre ++ etx :: rest)) = .error c := by
  show scanTxs ctx (pre ++ etx :: rest) = .error c
  rw [scanTxs_append_skipped ctx pre (etx :: rest) hpre]
  simp only [scanTxs, hc]

theorem c1_decode_failure_aborts_scan_witness :
    parse_block_votes exCtx
        (some ([.binary "other" .base58] ++
          EncodedTransaction.binary "bad" .base58 :: [.binary "tx1" .base58])) =
      .error .malformedTx :=
  c1_decode_failure_aborts_scan exCtx [.binary "other" .base58]
    (.binary "bad" .base58) [.binary "tx1" .base58] .malformedTx
    (by
      intro t ht
      simp only [List.mem_singleton] at ht
      subst ht
      rfl)
    rfl

/-- C2 counterexample: a block with two valid vote transactions yields
only the first one's record — the `break` at main.rs line 134 stops the
scan after the first vote transaction, although the second one would
yield a vote record of its own. -/
theorem c2_claim_counterexample :
    parse_block_votes exCtx (some [.binary "tx1" .base58, .binary "tx2" .base58]) =
      .ok [⟨1, 5, some 9, 100, [false]⟩] ∧
    processTx exCtx (.binary "tx2" .base58) = .ok (.voted ⟨3, 6, some 10, 200, [false]⟩) :=
  ⟨rfl, rfl⟩

/-- C2 (amended): the scan visits transactions in order, skipping
non-vote ones, and stops at the FIRST vote transaction: its record is the
whole output, the remaining transactions are never examined, and any
successful scan yields at most one vote record. -/
theorem c2_scan_stops_at_first_vote :
    (∀ (ctx : ExtractCtx) (pre : List EncodedTransaction) (etx : EncodedTransaction)
        (rest : List EncodedTransaction) (r : VoteRecord),
        (∀ t ∈ pre, processTx ctx t = .ok .skipped) →
        processTx ctx etx = .ok (.voted r) →
        parse_block_votes ctx (some (pre ++ etx :: rest)) = .ok [r]) ∧
    (∀ (ctx : ExtractCtx) (txs : Option (List EncodedTransaction)) (l : List VoteRecord),
        parse_block_votes ctx txs = .ok l → l.length ≤ 1) := by
  constructor
  · intro ctx pre etx rest r hpre hr
    show scanTxs ctx (pre ++ etx :: rest) = .ok [r]
    rw [scanTxs_append_skipped ctx pre (etx :: rest) hpre]
    simp only [scanTxs, hr]
  · intro ctx txs l h
    cases txs with
    | none =>
      simp only [parse_block_votes, Except.ok.injEq] at h
      subst h
      simp
    | some txs => exact scanTxs_ok_length ctx txs l h

theorem c2_scan_stops_at_first_vote_witness :
    parse_block_votes exCtx
        (some ([.binary "other" .base58] ++
          EncodedTransaction.binary "tx1" .base58 :: [.binary "tx2" .base58])) =
      .ok [⟨1, 5, some 9, 100, [false]⟩] :=
  c2_scan_stops_at_first_vote.1 exCtx [.binary "other" .base58]
    (.binary "tx1" .base58) [.binary "tx2" .base58] ⟨1, 5, some 9, 100, [false]⟩
    (by
      intro t ht
      simp only [List.mem_singleton] at ht
      subst ht
      rfl)
    rfl

/-- C3: entry-chain verification passes exactly when every entry
hash-chains from the seed, and on the first entry whose recomputed hash
differs from its claimed hash it fails with that entry's index, whatever
the subsequent entries are (they are never examined). -/
theorem c3_entry_chain_verification (c : ChainCtx) (seed : Hash) :
    (∀ es : List Entry, verifyEntries c es seed = .passed ↔ chainOk c seed es = true) ∧
    (∀ (pre : List Entry) (e : Entry) (post : List Entry),
        chainOk c seed pre = true →
        nextEntryHash c (lastHashOf seed pre) e ≠ e.hash →
        verifyEntries c (pre ++ e :: post) seed = .failedHashMismatch pre.length) := by
  constructor
  · intro es
    exact verifyFrom_passed_iff c es seed 0
  · intro pre e post hok hne
    have h := verifyFrom_first_mismatch c pre seed 0 e post hok hne
    simpa [verifyEntries] using h

theorem c3_entry_chain_verification_witness :
    verifyEntries exChain [⟨2, [], 2⟩] 0 = .passed ∧
    verifyEntries exChain [⟨2, [], 3⟩, ⟨1, [], 9⟩] 0 = .failedHashMismatch 0 :=
  ⟨((c3_entry_chain_verification exChain 0).1 [⟨2, [], 2⟩]).mpr (by decide),
   (c3_entry_chain_verification exChain 0).2 [] ⟨2, [], 3⟩ [⟨1, [], 9⟩]
     (by decide) (by decide)⟩

/-- C4 counterexample: a valid vote transaction whose first account key
is absent from the stake registry crashes the whole scan with the
stake-lookup unwrap, instead of recording an absent stake. -/
theorem c4_claim_counterexample :
    parse_block_votes { exCtx with stakes := [] } (some [.binary "tx1" .base58]) =
      .error .unknownStake :=
  rfl

/-- C4 (amended): a node identity absent from the stake registry makes
the stake-lookup `unwrap` crash, aborting the scan — absence is never
recorded in the output. -/
theorem c4_unknown_node_crashes (ctx : ExtractCtx) (etx : EncodedTransaction)
    (tx : VersionedTransaction) (ix : CompiledInstruction) (vote_ix : VoteInstruction)
    (node_pubkey : Pubkey)
    (hd : decodeTx ctx etx = .ok tx)
    (hv : ctx.vote_program_id ∈ tx.message.static_account_keys)
    (h0 : tx.message.instructions.get? 0 = some ix)
    (h1 : ctx.decodeVoteIx ix.data = some vote_ix)
    (h2 : tx.message.static_account_keys.get? 0 = some node_pubkey)
    (h3 : mapLookup node_pubkey ctx.stakes = none) :
    processTx ctx etx = .error .unknownStake := by
  have hpt : processTx ctx etx = processDecoded ctx tx := by
    unfold processTx
    rw [hd]
  rw [hpt]
  simp only [processDecoded, if_pos hv, h0, h1, h2, h3]

theorem c4_unknown_node_crashes_witness :
    processTx { exCtx with stakes := [] } (.binary "tx1" .base58) = .error .unknownStake :=
  c4_unknown_node_crashes { exCtx with stakes := [] } (.binary "tx1" .base58) exVoteTx
    ⟨1, [0], [2]⟩ (.vote [5] 9) 1 rfl (by decide) rfl rfl rfl rfl

/-- C5: a node identity present in both vote-account lists is mapped to
the stake of the later-processed entry: the lookup equals the last
matching entry of the delinquent list (the list processed second) and the
current list's entry has no effect on it. -/
theorem c5_later_list_wins (current delinquent : List VoteAccountInfo) (n : Pubkey)
    (hcur : n ∈ current.map VoteAccountInfo.node_pubkey)
    (hdel : n ∈ delinquent.map VoteAccountInfo.node_pubkey) :
    mapLookup n (leader_stakes current delinquent) =
      lastAssoc n (delinquent.map (fun x => (x.node_pubkey, x.activated_stake))) ∧
    mapLookup n (leader_stakes current delinquent) =
      mapLookup n (leader_stakes [] delinquent) := by
  have key : ∀ cur : List VoteAccountInfo,
      mapLookup n (leader_stakes cur delinquent) =
        lastAssoc n (delinquent.map (fun x => (x.node_pubkey, x.activated_stake))) := by
    intro cur
    unfold leader_stakes
    rw [mapLookup_collectMap, List.map_append, lastAssoc_append]
    have hs : (lastAssoc n
        (delinquent.map (fun x => (x.node_pubkey, x.activated_stake)))).isSome := by
      apply lastAssoc_isSome_of_mem
      simpa [List.map_map, Function.comp] using hdel
    cases ho : lastAssoc n (delinquent.map (fun x => (x.node_pubkey, x.activated_stake))) with
    | none => rw [ho] at hs; cases hs
    | some v => simp [ho, Option.or]
  exact ⟨key current, (key current).trans (key []).symm⟩

theorem c5_later_list_wins_witness :
    mapLookup 1 (leader_stakes [⟨1, 10⟩] [⟨1, 20⟩]) =
      lastAssoc 1 (([⟨1, 20⟩] : List VoteAccountInfo).map
        (fun x => (x.node_pubkey, x.activated_stake))) ∧
    mapLookup 1 (leader_stakes [⟨1, 10⟩] [⟨1, 20⟩]) =
      mapLookup 1 (leader_stakes [] [⟨1, 20⟩]) ∧
    mapLookup 1 (leader_stakes [⟨1, 10⟩] [⟨1, 20⟩]) = some 20 :=
  ⟨(c5_later_list_wins [⟨1, 10⟩] [⟨1, 20⟩] 1 (by decide) (by decide)).1,
   (c5_later_list_wins [⟨1, 10⟩] [⟨1, 20⟩] 1 (by decide) (by decide)).2,
   rfl⟩

/-- C6: the registry built from the union of the two lists has pairwise
distinct node keys, and `total_stake` equals the sum, over those distinct
nodes, of the stake each one is mapped to after the override policy. -/
theorem c6_total_stake_sum (current delinquent : List VoteAccountInfo) :
    ((leader_stakes current delinquent).map Prod.fst).Nodup ∧
    total_stake current delinquent =
      (((leader_stakes current delinquent).map Prod.fst).map
        (fun n => (mapLookup n (leader_stakes current delinquent)).getD 0)).sum := by
  constructor
  · unfold leader_stakes
    exact nodup_keys_collectMap _
  · unfold total_stake leader_stakes
    rw [foldl_add_snd, map_keys_lookup _ (nodup_keys_collectMap _)]
    simp

/-- C7: decoding rejects every envelope whose encoding tag is not the
supported base-58 binary one with the unsupported-encoding crash, and
never coerces: it succeeds only on a base-58 `Binary` envelope whose
payload decodes. -/
theorem c7_unsupported_encoding_rejected (ctx : ExtractCtx) :
    (∀ (payload : String) (enc : TransactionBinaryEncoding), enc ≠ .base58 →
        decodeTx ctx (.binary payload enc) = .error .unsupportedEncoding) ∧
    (∀ payload : String,
        decodeTx ctx (.legacyBinary payload) = .error .unsupportedEncoding) ∧
    decodeTx ctx .json = .error .unsupportedEncoding ∧
    decodeTx ctx .accounts = .error .unsupportedEncoding ∧
    (∀ (etx : EncodedTransaction) (tx : VersionedTransaction), decodeTx ctx etx = .ok tx →
        ∃ payload, etx = .binary payload .base58 ∧ ctx.decodeBytes payload = some tx) := by
  refine ⟨?_, fun _ => rfl, rfl, rfl, ?_⟩
  · intro payload enc henc
    simp [decodeTx, henc]
  · intro etx tx h
    cases etx with
    | binary payload enc =>
      cases enc with
      | base58 =>
        cases hd : ctx.decodeBytes payload with
        | none => simp [decodeTx, hd] at h
        | some tx' =>
          simp only [decodeTx, if_pos, hd, Except.ok.injEq] at h
          exact ⟨payload, rfl, by rw [hd, h]⟩
      | base64 => simp [decodeTx] at h
    | legacyBinary payload => simp [decodeTx] at h
    | json => simp [decodeTx] at h
    | accounts => simp [decodeTx] at h

theorem c7_unsupported_encoding_rejected_witness :
    decodeTx exCtx (.binary "tx1" .base64) = .error .unsupportedEncoding ∧
    (∃ payload, EncodedTransaction.binary "tx1" .base58 = .binary payload .base58 ∧
        exCtx.decodeBytes payload = some exVoteTx) :=
  ⟨(c7_unsupported_encoding_rejected exCtx).1 "tx1" .base64 (by decide),
   (c7_unsupported_encoding_rejected exCtx).2.2.2.2 (.binary "tx1" .base58) exVoteTx rfl⟩

/-- C8 counterexample: the `Withdraw` variant carries no slot list
(`last_voted_slot` is `none`), yet the extracted slot is the present
default value 0 — the same value extracted from a genuine vote for
slot 0 — and a whole withdraw-instruction transaction yields a record
with slot 0, not an absent slot. -/
theorem c8_claim_counterexample :
    (VoteInstruction.withdraw 5).last_voted_slot = none ∧
    slot_vote_of (VoteInstruction.withdraw 5) = 0 ∧
    slot_vote_of (VoteInstruction.vote [0] 9) = 0 ∧
    processTx exCtx (.binary "wtx" .base58) = .ok (.voted ⟨1, 0, none, 100, [false]⟩) :=
  ⟨rfl, rfl, rfl, rfl⟩

/-- C8 (amended): the claimed bank hash is `some` exactly for the `Vote`
and `CompactUpdateVoteState` variants, and a variant carrying no slot
list yields the defaulted slot 0 (`unwrap_or_default`), not an absent
value. -/
theorem c8_slot_default_and_bank_hash (v : VoteInstruction) :
    (v.last_voted_slot = none → slot_vote_of v = 0) ∧
    ((bank_hash_of v).isSome ↔
      (∃ s h, v = .vote s h) ∨ (∃ s h, v = .compactUpdateVoteState s h)) := by
  constructor
  · intro h
    simp [slot_vote_of, h]
  · cases v <;> simp [bank_hash_of]

theorem c8_slot_default_and_bank_hash_witness :
    slot_vote_of (VoteInstruction.authorize 2) = 0 :=
  (c8_slot_default_and_bank_hash (VoteInstruction.authorize 2)).1 rfl

/-- C9 counterexample: a decoded vote transaction with two signatures but
a single account key yields only one verification boolean — the zip with
the account-key list truncates, so it is not one boolean per signature. -/
theorem c9_claim_counterexample :
    exShortKeyTx.signatures.length = 2 ∧
    processTx exCtx (.binary "short" .base58) =
      .ok (.voted ⟨7, 5, some 9, 50, [false]⟩) ∧
    (VoteRecord.mk 7 5 (some 9) 50 [false]).sig_verifies.length = 1 :=
  ⟨rfl, rfl, rfl⟩

/-- C9 (amended): signature verification produces one boolean per
signature/account-key PAIR — the minimum of the two list lengths, one per
signature exactly when the account list is at least as long — the i-th
boolean verifying the i-th signature against the i-th account key over
the serialized message bytes; and the verification results never decide
whether the scan crashes. -/
theorem c9_signature_checks :
    (∀ (ctx : ExtractCtx) (etx : EncodedTransaction) (r : VoteRecord),
        processTx ctx etx = .ok (.voted r) →
        ∃ tx, decodeTx ctx etx = .ok tx ∧
          r.sig_verifies.length = min tx.signatures.length tx.message.account_keys.length ∧
          ∀ (i : Nat) (s : Sig) (k : Pubkey),
            tx.signatures.get? i = some s → tx.message.account_keys.get? i = some k →
            r.sig_verifies.get? i = some (ctx.sigVerify s k (ctx.serializeMsg tx.message))) ∧
    (∀ (ctx : ExtractCtx) (sv : Sig → Pubkey → List Nat → Bool) (etx : EncodedTransaction),
        (processTx { ctx with sigVerify := sv } etx).isOk = (processTx ctx etx).isOk) := by
  constructor
  · intro ctx etx r h
    obtain ⟨tx, hd, hpd⟩ := processTx_voted_inv ctx etx r h
    obtain ⟨ix, vote_ix, node_pubkey, stake_amount, _, _, _, _, _, hr⟩ :=
      processDecoded_voted_inv ctx tx r hpd
    refine ⟨tx, hd, ?_, ?_⟩
    · rw [hr]
      simp [Message.static_account_keys, List.length_zip]
    · intro i s k hs hk
      rw [hr]
      show ((tx.signatures.zip tx.message.static_account_keys).map
        (fun sp => ctx.sigVerify sp.1 sp.2 (ctx.serializeMsg tx.message))).get? i = _
      rw [List.get?_map, zip_get? tx.signatures tx.message.static_account_keys i s k hs hk]
      rfl
  · intro ctx sv etx
    exact processTx_sigVerify_isOk ctx sv etx

theorem c9_signature_checks_witness :
    (∃ tx, decodeTx exCtx (.binary "tx1" .base58) = .ok tx ∧
      (VoteRecord.mk 1 5 (some 9) 100 [false]).sig_verifies.length =
        min tx.signatures.length tx.message.account_keys.length ∧
      ∀ (i : Nat) (s : Sig) (k : Pubkey),
        tx.signatures.get? i = some s → tx.message.account_keys.get? i = some k →
        (VoteRecord.mk 1 5 (some 9) 100 [false]).sig_verifies.get? i =
          some (exCtx.sigVerify s k (exCtx.serializeMsg tx.message))) :=
  c9_signature_checks.1 exCtx (.binary "tx1" .base58) ⟨1, 5, some 9, 100, [false]⟩ rfl

/-- C10: for a decoded transaction whose account keys contain the vote
program identity, the extractor unconditionally unwraps the first
instruction of the message: with an empty instruction list processing
crashes on that unwrap (it is neither skipped nor a per-item result), and
with a non-empty instruction list that crash cannot occur. -/
theorem c10_first_instruction_unwrap (ctx : ExtractCtx) (etx : EncodedTransaction)
    (tx : VersionedTransaction) (hd : decodeTx ctx etx = .ok tx)
    (hv : ctx.vote_program_id ∈ tx.message.static_account_keys) :
    (tx.message.instructions = [] → processTx ctx etx = .error .noInstruction) ∧
    (tx.message.instructions ≠ [] → processTx ctx etx ≠ .error .noInstruction) := by
  have hpt : processTx ctx etx = processDecoded ctx tx := by
    unfold processTx
    rw [hd]
  constructor
  · intro hnil
    rw [hpt]
    simp [processDecoded, hv, hnil]
  · intro hne
    rw [hpt]
    cases hins : tx.message.instructions with
    | nil => exact absurd hins hne
    | cons ix rest =>
      have h0 : tx.message.instructions[0]? = some ix := by rw [hins]; simp
      cases h1 : ctx.decodeVoteIx ix.data with
      | none => simp [processDecoded, hv, h0, h1]
      | some vix =>
        cases h2 : tx.message.static_account_keys[0]? with
        | none => simp [processDecoded, hv, h0, h1, h2]
        | some node =>
          cases h3 : mapLookup node ctx.stakes with
          | none => simp [processDecoded, hv, h0, h1, h2, h3]
          | some stake => simp [processDecoded, hv, h0, h1, h2, h3]

theorem c10_first_instruction_unwrap_witness :
    processTx exCtx (.binary "noix" .base58) = .error .noInstruction :=
  (c10_first_instruction_unwrap exCtx (.binary "noix" .base58) exNoIxTx rfl
    (by decide)).1 rfl

end Lightnode
